import Mathlib

/-!
# Formal model of the barman cloud-backup and WAL-archiver core

Shallow embedding, in Lean 4, of the parts of the `2ndquadrant-it/barman`
repository exercised by the specification claims:

* `S3TarUploader` (buffered multipart upload of a streamed tar archive),
* `S3UploadController` (one lazily created tar stream per destination),
* `S3BackupUploader.backup_copy` (job scheduling and exclusion lists),
* `CloudInterface.__init__` (destination URL validation),
* `main` (entry-point control flow and exit codes),
* `FileWalArchiver.get_remote_status`,
* the `StreamingWalArchiver` receiver/server compatibility rule,
* the WAL catalog (`xlogdb`) line format.

Python byte strings are modelled as `List Nat`, paths as strings or as lists
of path components, exceptions as explicit error values, and the mutable
objects as explicit state passed through the functions.
-/

namespace Barman

/-! ## S3TarUploader (src/barman/clients/cloud_backup.py, lines 409-458) -/

/-- `DEFAULT_CHUNK_SIZE = 10 << 21` from cloud_backup.py line 48. -/
def DEFAULT_CHUNK_SIZE : Nat := 10 <<< 21

/-- State of one `S3TarUploader` object.  The `BytesIO` buffer is the list of
buffered bytes, `mpu` records whether `create_multipart_upload` has been
called, `parts` is the list of part handles (part number together with the
uploaded body), and `completions` records every
`complete_multipart_upload` call, each carrying the parts list passed to
it. -/
structure S3TarUploader where
  chunk_size : Nat
  buffer : List Nat
  mpu : Bool
  counter : Nat
  parts : List (Nat × List Nat)
  completions : List (List (Nat × List Nat))
  deriving Repr, DecidableEq

namespace S3TarUploader

/-- `S3TarUploader.__init__`: empty buffer, no multipart upload yet,
counter starts at 1, no parts. -/
def init (chunk_size : Nat := DEFAULT_CHUNK_SIZE) : S3TarUploader :=
  { chunk_size := chunk_size
    buffer := []
    mpu := false
    counter := 1
    parts := []
    completions := [] }

/-- `S3TarUploader.flush`: create the multipart upload if necessary, upload
the whole buffer as the part numbered `counter`, append the part handle,
increment the counter and truncate the buffer. -/
def flush (s : S3TarUploader) : S3TarUploader :=
  { s with
    mpu := true
    parts := s.parts ++ [(s.counter, s.buffer)]
    counter := s.counter + 1
    buffer := [] }

/-- `S3TarUploader.write`: if the buffer already holds more than
`chunk_size` bytes, flush it first; then append the new bytes. -/
def write (s : S3TarUploader) (buf : List Nat) : S3TarUploader :=
  let s' := if s.buffer.length > s.chunk_size then s.flush else s
  { s' with buffer := s'.buffer ++ buf }

/-- `S3TarUploader.close`: flush the remaining buffer (unconditionally) and
issue the completion call with the accumulated parts list. -/
def close (s : S3TarUploader) : S3TarUploader :=
  let s' := s.flush
  { s' with completions := s'.completions ++ [s'.parts] }

/-- Run a sequence of `write` calls starting from a given state. -/
def runWrites (s : S3TarUploader) : List (List Nat) → S3TarUploader
  | [] => s
  | w :: ws => runWrites (s.write w) ws

/-- Invariant tying the part counter to the parts list: the counter is one
past the number of uploaded parts, the part numbers are exactly
`1, 2, …, n` in order, and no completion call has happened yet. -/
def Inv (s : S3TarUploader) : Prop :=
  s.counter = s.parts.length + 1 ∧
  s.parts.map Prod.fst = List.range' 1 s.parts.length ∧
  s.completions = []

theorem inv_init (c : Nat) : Inv (init c) := by
  refine ⟨rfl, ?_, rfl⟩
  simp [init]

theorem inv_flush {s : S3TarUploader} (h : Inv s) : Inv s.flush := by
  obtain ⟨h1, h2, h3⟩ := h
  refine ⟨?_, ?_, h3⟩
  · simp [flush, h1]
  · simp only [flush, List.map_append, List.length_append, List.map_cons,
      List.map_nil, List.length_cons, List.length_nil]
    rw [h2, h1]
    rw [List.range'_concat]
    simp [Nat.add_comm]

theorem inv_write {s : S3TarUploader} (h : Inv s) (buf : List Nat) :
    Inv (s.write buf) := by
  unfold write
  dsimp only
  split
  · have h' := inv_flush h
    exact ⟨h'.1, h'.2.1, h'.2.2⟩
  · exact ⟨h.1, h.2.1, h.2.2⟩

theorem inv_runWrites {s : S3TarUploader} (h : Inv s) (ws : List (List Nat)) :
    Inv (s.runWrites ws) := by
  induction ws generalizing s with
  | nil => exact h
  | cons w ws ih => exact ih (inv_write h w)

end S3TarUploader

end Barman

namespace Barman

/-- **C1.** For every sequence of writes to a single `S3TarUploader`:
a `write` call flushes exactly when it finds the buffer already holding more
than `chunk_size` bytes (default `10 << 21 = 20971520`), and otherwise only
appends; each flush uploads exactly one part numbered by the running
counter, which starts at 1 and increases by exactly 1 per flushed part;
and `close` flushes the remaining buffered bytes as a final part and issues
exactly one completion call carrying the accumulated parts list whose part
numbers are `1, 2, …, n` in ascending order. -/
theorem C1_s3_tar_uploader_multipart (ws : List (List Nat)) (cs : Nat) :
    (∀ s : S3TarUploader, ∀ buf : List Nat,
        s.buffer.length > s.chunk_size →
        s.write buf = { s.flush with buffer := buf }) ∧
    (∀ s : S3TarUploader, ∀ buf : List Nat,
        ¬ s.buffer.length > s.chunk_size →
        s.write buf = { s with buffer := s.buffer ++ buf }) ∧
    (∀ s : S3TarUploader,
        s.flush.parts = s.parts ++ [(s.counter, s.buffer)] ∧
        s.flush.counter = s.counter + 1 ∧
        s.flush.buffer = []) ∧
    (S3TarUploader.init cs).counter = 1 ∧
    DEFAULT_CHUNK_SIZE = 20971520 ∧
    (let final := ((S3TarUploader.init cs).runWrites ws).close
     final.completions = [final.parts] ∧
     final.parts.map Prod.fst = List.range' 1 final.parts.length ∧
     final.parts.getLast? = some (final.parts.length,
       ((S3TarUploader.init cs).runWrites ws).buffer) ∧
     (final.parts.map Prod.fst).Sorted (· < ·)) := by
  have hrun := S3TarUploader.inv_runWrites (S3TarUploader.inv_init cs) ws
  set r := (S3TarUploader.init cs).runWrites ws with hr
  obtain ⟨hc, hp, hcomp⟩ := hrun
  refine ⟨?_, ?_, ?_, rfl, by decide, ?_, ?_, ?_, ?_⟩
  · intro s buf h
    simp [S3TarUploader.write, h, S3TarUploader.flush]
  · intro s buf h
    simp [S3TarUploader.write, h]
  · intro s
    exact ⟨rfl, rfl, rfl⟩
  · simp [S3TarUploader.close, S3TarUploader.flush, hcomp]
  · simp only [S3TarUploader.close, S3TarUploader.flush]
    simp only [List.map_append, List.length_append, List.map_cons,
      List.map_nil, List.length_cons, List.length_nil]
    rw [hp, hc, List.range'_concat]
    simp [Nat.add_comm]
  · simp only [S3TarUploader.close, S3TarUploader.flush]
    simp [hc]
  · have : (S3TarUploader.close r).parts.map Prod.fst =
        List.range' 1 ((S3TarUploader.close r).parts.length) := by
      simp only [S3TarUploader.close, S3TarUploader.flush]
      simp only [List.map_append, List.length_append, List.map_cons,
        List.map_nil, List.length_cons, List.length_nil]
      rw [hp, hc, List.range'_concat]
      simp [Nat.add_comm]
    rw [this]
    exact List.pairwise_lt_range' ..

end Barman

namespace Barman

/-! ## Path filtering (barman.fs.path_allowed) and the upload walk

`S3UploadController.upload_directory` (cloud_backup.py lines 499-515) walks
the source tree with `os.walk` and filters every visited directory and every
file through `barman.fs.path_allowed(exclude, include, path, is_dir)`.

Paths relative to the walked source directory are modelled as lists of path
components (`List String`); the source directory itself has the empty list
as its relative path. -/

/-- Split a list on a separator element; the separator is dropped and the
chunks between consecutive separators are returned (always at least one
chunk, possibly empty). -/
def splitOnChar {α : Type} [DecidableEq α] (sep : α) : List α → List (List α)
  | [] => [[]]
  | c :: cs =>
      if c = sep then [] :: splitOnChar sep cs
      else
        match splitOnChar sep cs with
        | [] => [[c]]
        | r :: rs => (c :: r) :: rs

/-- A filesystem tree node: a directory with named children, or a file. -/
inductive FSTree where
  | dir (name : String) (children : List FSTree)
  | file (name : String)
  deriving Repr

/-- An entry added to a tar archive: its relative path (as components) and
whether it is a directory. -/
structure TarEntry where
  path : List String
  isDir : Bool
  deriving Repr, DecidableEq

/-- Modelled from the spec: one pattern component of an exclude/include
glob pattern.  The spec calls the `exclude`/`include` lists "glob
patterns"; the patterns actually passed by `backup_copy` are `"/*"`,
`"/PG_<major>_*"`, `"pg_tblspc/<oid>"` and a tablespace path relative to
`pgdata`, so a component is either a literal name, the wildcard `*`, or a
literal prefix followed by `*`. -/
def compMatch (pat comp : String) : Bool :=
  if pat = "*" then true
  else if pat.data.getLast? = some '*' then
    pat.data.dropLast.isPrefixOf comp.data
  else pat = comp

/-- Modelled from the spec: matching one glob pattern (as a list of
components) against a relative path (as a list of components).  The
`barman.fs` module is not under `src/`; the spec's policy that the
exclusion of a directory makes the whole backup "transfer each tablespace
exactly once" forces a pattern that matches a directory to cover the
directory's whole subtree, so a fully consumed pattern matches any
remaining path suffix.  A pattern never matches a proper prefix of
itself. -/
def patMatch : List String → List String → Bool
  | [], _ => true
  | _ :: _, [] => false
  | p :: ps, c :: cs => compMatch p c && patMatch ps cs

/-- Split a pattern or path string on `/`, dropping empty components, so
`"/PG_9.6_*"` becomes `["PG_9.6_*"]` and `"pg_tblspc/16384"` becomes
`["pg_tblspc", "16384"]`. -/
def splitPath (s : String) : List String :=
  ((splitOnChar '/' s.data).filter (· ≠ [])).map List.asString

/-- Modelled from the spec: `barman.fs.path_allowed(exclude, include, path,
is_dir)` is not under `src/`.  Per the spec a path passing the include
patterns is accepted, a path matching the exclude patterns is rejected,
everything else is accepted; the include list must take priority, because
`backup_copy` uploads tablespaces with `exclude=['/*']` together with
`include=['/PG_<major>_*']` and still expects the `PG_*` subtree to be
transferred. -/
def path_allowed (exclude include_ : Option (List String))
    (path : List String) (is_dir : Bool) : Bool :=
  match include_ with
  | some inc =>
      if inc.any (fun p => patMatch (splitPath p) path) then true
      else
        match exclude with
        | some exc => ¬ exc.any (fun p => patMatch (splitPath p) path)
        | none => true
  | none =>
      match exclude with
      | some exc => ¬ exc.any (fun p => patMatch (splitPath p) path)
      | none => true

/-- The direct file children of a directory's child list. -/
def childFiles : List FSTree → List String
  | [] => []
  | .file n :: rest => n :: childFiles rest
  | .dir _ _ :: rest => childFiles rest

mutual

/-- `os.walk` recursion into one child of the walked tree, as driven by the
loop of `upload_directory`: a file child contributes nothing here (files
are handled when their parent directory is visited), a directory child is
visited as a new walk root. -/
def walkTree (exclude include_ : Option (List String))
    (path : List String) : FSTree → List TarEntry
  | .file _ => []
  | .dir n children => walkRoot exclude include_ (path ++ [n]) children

/-- One `os.walk` step of `upload_directory` (cloud_backup.py lines
503-515) at relative path `path` whose directory has children `children`:
if `path_allowed` rejects the directory the body is skipped (`continue`),
but — exactly as in the source, which never prunes the `dirs` list —
the walk still descends into every subdirectory.  If the directory is
allowed, its own entry is added, then each direct file passing
`path_allowed` is added. -/
def walkRoot (exclude include_ : Option (List String))
    (path : List String) (children : List FSTree) : List TarEntry :=
  (if path_allowed exclude include_ path true then
    ⟨path, true⟩ ::
      ((childFiles children).filterMap fun f =>
        if path_allowed exclude include_ (path ++ [f]) false then
          some ⟨path ++ [f], false⟩
        else none)
  else []) ++ walkList exclude include_ path children

/-- Walk every child in order. -/
def walkList (exclude include_ : Option (List String))
    (path : List String) : List FSTree → List TarEntry
  | [] => []
  | c :: rest =>
      walkTree exclude include_ path c ++ walkList exclude include_ path rest

end

/-- `S3UploadController.upload_directory`: the source directory contents
are walked starting from the relative root `[]`; the returned list is the
sequence of entries added to the destination's tar archive. -/
def upload_directory (exclude include_ : Option (List String))
    (src : List FSTree) : List TarEntry :=
  walkRoot exclude include_ [] src

/-- A fully matched pattern also matches every extension of the path:
exclusion of a directory covers the directory's whole subtree. -/
theorem patMatch_append {ps path : List String} (rest : List String)
    (h : patMatch ps path = true) : patMatch ps (path ++ rest) = true := by
  induction ps generalizing path with
  | nil => rfl
  | cons p ps ih =>
      cases path with
      | nil => simp [patMatch] at h
      | cons c cs =>
          rw [patMatch, Bool.and_eq_true] at h
          rw [List.cons_append, patMatch, Bool.and_eq_true]
          exact ⟨h.1, ih h.2⟩

mutual

theorem allowed_of_mem_walkTree (ex inc : Option (List String))
    (path : List String) (t : FSTree) (e : TarEntry)
    (h : e ∈ walkTree ex inc path t) :
    path_allowed ex inc e.path e.isDir = true := by
  match t with
  | .file n => rw [walkTree] at h; exact absurd h (List.not_mem_nil e)
  | .dir n cs =>
      rw [walkTree] at h
      exact allowed_of_mem_walkRoot ex inc (path ++ [n]) cs e h

theorem allowed_of_mem_walkRoot (ex inc : Option (List String))
    (path : List String) (children : List FSTree) (e : TarEntry)
    (h : e ∈ walkRoot ex inc path children) :
    path_allowed ex inc e.path e.isDir = true := by
  rw [walkRoot] at h
  rcases List.mem_append.1 h with h1 | h2
  · by_cases hd : path_allowed ex inc path true = true
    · rw [if_pos hd] at h1
      rcases List.mem_cons.1 h1 with rfl | hf
      · exact hd
      · obtain ⟨f, _, hfe⟩ := List.mem_filterMap.1 hf
        by_cases hfa : path_allowed ex inc (path ++ [f]) false = true
        · rw [if_pos hfa] at hfe
          cases Option.some_injective _ hfe
          exact hfa
        · rw [if_neg hfa] at hfe
          exact absurd hfe (Option.noConfusion)
    · rw [if_neg hd] at h1
      exact absurd h1 (List.not_mem_nil e)
  · exact allowed_of_mem_walkList ex inc path children e h2

theorem allowed_of_mem_walkList (ex inc : Option (List String))
    (path : List String) (children : List FSTree) (e : TarEntry)
    (h : e ∈ walkList ex inc path children) :
    path_allowed ex inc e.path e.isDir = true := by
  match children with
  | [] => rw [walkList] at h; exact absurd h (List.not_mem_nil e)
  | c :: rest =>
      rw [walkList] at h
      rcases List.mem_append.1 h with h1 | h2
      · exact allowed_of_mem_walkTree ex inc path c e h1
      · exact allowed_of_mem_walkList ex inc path rest e h2

end

/-- With no include list, a rejected directory path excludes its whole
subtree: no produced entry lies at or below it. -/
theorem no_descendant_of_excluded (exc : List String)
    (d : List String) (src : List FSTree)
    (hd : path_allowed (some exc) none d true = false)
    (e : TarEntry) (he : e ∈ upload_directory (some exc) none src) :
    ¬ d <+: e.path := by
  intro hpre
  have hall := allowed_of_mem_walkRoot (some exc) none [] src e he
  obtain ⟨rest, hrest⟩ := hpre
  simp only [path_allowed, decide_eq_true_eq, Bool.not_eq_true',
    decide_eq_false_iff_not] at hd hall
  rw [not_not] at hd
  apply hall
  rw [List.any_eq_true] at hd ⊢
  obtain ⟨p, hp, hmatch⟩ := hd
  exact ⟨p, hp, by rw [← hrest]; exact patMatch_append rest hmatch⟩

mutual

theorem file_parent_allowed_walkTree (ex inc : Option (List String))
    (path : List String) (t : FSTree) (e : TarEntry)
    (h : e ∈ walkTree ex inc path t) (hf : e.isDir = false) :
    path_allowed ex inc e.path.dropLast true = true := by
  match t with
  | .file n => rw [walkTree] at h; exact absurd h (List.not_mem_nil e)
  | .dir n cs =>
      rw [walkTree] at h
      exact file_parent_allowed_walkRoot ex inc (path ++ [n]) cs e h hf

theorem file_parent_allowed_walkRoot (ex inc : Option (List String))
    (path : List String) (children : List FSTree) (e : TarEntry)
    (h : e ∈ walkRoot ex inc path children) (hf : e.isDir = false) :
    path_allowed ex inc e.path.dropLast true = true := by
  rw [walkRoot] at h
  rcases List.mem_append.1 h with h1 | h2
  · by_cases hd : path_allowed ex inc path true = true
    · rw [if_pos hd] at h1
      rcases List.mem_cons.1 h1 with rfl | hfm
      · exact absurd hf (by simp)
      · obtain ⟨f, _, hfe⟩ := List.mem_filterMap.1 hfm
        by_cases hfa : path_allowed ex inc (path ++ [f]) false = true
        · rw [if_pos hfa] at hfe
          cases Option.some_injective _ hfe
          show path_allowed ex inc (path ++ [f]).dropLast true = true
          rw [List.dropLast_concat]
          exact hd
        · rw [if_neg hfa] at hfe
          exact absurd hfe Option.noConfusion
    · rw [if_neg hd] at h1
      exact absurd h1 (List.not_mem_nil e)
  · exact file_parent_allowed_walkList ex inc path children e h2 hf

theorem file_parent_allowed_walkList (ex inc : Option (List String))
    (path : List String) (children : List FSTree) (e : TarEntry)
    (h : e ∈ walkList ex inc path children) (hf : e.isDir = false) :
    path_allowed ex inc e.path.dropLast true = true := by
  match children with
  | [] => rw [walkList] at h; exact absurd h (List.not_mem_nil e)
  | c :: rest =>
      rw [walkList] at h
      rcases List.mem_append.1 h with h1 | h2
      · exact file_parent_allowed_walkTree ex inc path c e h1 hf
      · exact file_parent_allowed_walkList ex inc path rest e h2 hf

end

/-- A directory that fails the filter contributes none of its direct
files, whatever the include list: file entries are emitted only while
visiting their parent directory, and that visit is skipped entirely when
the parent is rejected. -/
theorem no_direct_file_of_filtered_dir (ex inc : Option (List String))
    (src : List FSTree) (d : List String) (f : String)
    (hd : path_allowed ex inc d true = false) :
    TarEntry.mk (d ++ [f]) false ∉ upload_directory ex inc src := by
  intro hmem
  have hpar := file_parent_allowed_walkRoot ex inc [] src _ hmem rfl
  rw [show (TarEntry.mk (d ++ [f]) false).path = d ++ [f] from rfl,
    List.dropLast_concat, hd] at hpar
  exact Bool.false_ne_true hpar

/-- **C5, counterexample.** The claim "a directory that fails the filter is
not recursed into: no descendant directory or file of a filtered-out
directory is added to the tar archive" is false: `upload_directory` never
prunes the walk (the loop only `continue`s, it does not clear `dirs`), so
with `exclude=['/a']`, `include=['/a/b']` the directory `a` fails the
filter, yet its child directory `a/b` is matched by the include pattern and
is added to the tar archive. -/
theorem C5_counterexample_unpruned_walk :
    path_allowed (some ["/a"]) (some ["/a/b"]) ["a"] true = false ∧
    (⟨["a", "b"], true⟩ : TarEntry) ∈
      upload_directory (some ["/a"]) (some ["/a/b"])
        [.dir "a" [.dir "b" []]] := by
  constructor
  · decide
  · simp only [upload_directory, walkRoot, walkList, walkTree]
    decide

/-- **C5, amended.** `upload_directory` applies the exclude/include path
filters at both directory and file granularity: every entry added to the
tar archive passes `path_allowed` at its own path, and a filtered-out
directory contributes neither its own entry (it fails its own filter) nor
any of its direct files (file entries are emitted only under a parent
directory that passed the filter).  The walk, however, still descends
into the subdirectories of a filtered-out directory and filters each one
independently, so a descendant matched by an include pattern is still
added; only when no include list is given does the exclusion of a
directory extend to its whole subtree, so that no descendant of a
filtered-out directory is added. -/
theorem C5_upload_directory_filters (ex inc : Option (List String))
    (src : List FSTree) :
    (∀ e ∈ upload_directory ex inc src,
        path_allowed ex inc e.path e.isDir = true) ∧
    (∀ (d : List String) (f : String),
        path_allowed ex inc d true = false →
        TarEntry.mk (d ++ [f]) false ∉ upload_directory ex inc src) ∧
    (∀ (exc : List String) (d : List String),
        path_allowed (some exc) none d true = false →
        ∀ e ∈ upload_directory (some exc) none src, ¬ d <+: e.path) := by
  refine ⟨fun e he => allowed_of_mem_walkRoot ex inc [] src e he,
    fun d f hd => no_direct_file_of_filtered_dir ex inc src d f hd,
    fun exc d hd e he => no_descendant_of_excluded exc d src hd e he⟩

end Barman

namespace Barman

/-! ## S3BackupUploader.backup_copy (cloud_backup.py lines 257-365) -/

/-- Python `str.startswith`. -/
def startswith (s pre : String) : Bool :=
  pre.data.isPrefixOf s.data

/-- Python slice `s[n:]` (by character count). -/
def sliceFrom (s : String) (n : Nat) : String :=
  (s.data.drop n).asString

/-- Python `os.path.basename`. -/
def os_path_basename (p : String) : String :=
  ((splitOnChar '/' p.data).getLastD []).asString

/-- A tablespace of a backup (barman.infofile; the fields used by
`backup_copy`). -/
structure Tablespace where
  oid : Nat
  name : String
  location : String
  deriving Repr, DecidableEq

/-- An external configuration file as returned by
`BackupInfo.get_external_config_files` (file types `config_file`,
`hba_file`, `ident_file`, `include`). -/
structure ConfigFile where
  file_type : String
  path : String
  deriving Repr, DecidableEq

/-- The fields of a `BackupInfo` that `backup_copy` reads.
`config_files` stands for the result of
`backup_info.get_external_config_files()`. -/
structure BackupInfo where
  pgdata : String
  tablespaces : List Tablespace
  config_files : List ConfigFile
  deriving Repr, DecidableEq

/-- A job registered on the `S3UploadController` by `backup_copy`: either
an `upload_directory` call or an `add_file` call. -/
inductive Job where
  | uploadDirectory (label src dst : String)
      (exclude include_ : Option (List String))
  | addFile (label src dst path : String) (optional : Bool)
  deriving Repr, DecidableEq

/-- The exclusion entries contributed by one tablespace to the PGDATA
exclusion list: the tablespace location relative to `pgdata` when the
location starts with `pgdata`, and always the `pg_tblspc/<oid>` link. -/
def tsExcludes (pgdata : String) (ts : Tablespace) : List String :=
  (if startswith ts.location pgdata then
    [sliceFrom ts.location pgdata.data.length]
  else []) ++ ["pg_tblspc/" ++ toString ts.oid]

/-- The `upload_directory` job scheduled for one tablespace. -/
def tsJob (EXCLUDE_LIST : List String) (server_major_version : String)
    (ts : Tablespace) : Job :=
  .uploadDirectory ts.name ts.location (toString ts.oid)
    (some ("/*" :: EXCLUDE_LIST))
    (some ["/PG_" ++ server_major_version ++ "_*"])

/-- The tablespace loop of `backup_copy` (lines 278-306): for each
tablespace, extend the PGDATA exclusion list and schedule that
tablespace's upload job.  Returns the final exclusion list and the
scheduled jobs, in loop order. -/
def tablespace_loop (pgdata : String) (EXCLUDE_LIST : List String)
    (server_major_version : String) :
    List Tablespace → List String × List Job
  | [] => ([], [])
  | ts :: rest =>
      let (e, js) := tablespace_loop pgdata EXCLUDE_LIST
        server_major_version rest
      (tsExcludes pgdata ts ++ e,
        tsJob EXCLUDE_LIST server_major_version ts :: js)

/-- The configuration-file loop of `backup_copy` (lines 325-347):
`include`-type files are collected separately (no job); every other file
gets an `add_file` job into `data`, optional exactly when its type is
`ident_file`. -/
def config_file_jobs : List ConfigFile → List Job
  | [] => []
  | cf :: rest =>
      if cf.file_type = "include" then config_file_jobs rest
      else
        .addFile cf.file_type cf.path "data" (os_path_basename cf.path)
            (cf.file_type = "ident_file") :: config_file_jobs rest

/-- `S3BackupUploader.backup_copy`: tablespace jobs first, then the PGDATA
job (with the accumulated exclusion list appended to
`PGDATA_EXCLUDE_LIST + EXCLUDE_LIST`), then `pg_control`, then the
external configuration files.  The two platform exclusion lists come from
`barman.postgres_plumbing`, which is outside `src/`, so they are left as
parameters. -/
def backup_copy (PGDATA_EXCLUDE_LIST EXCLUDE_LIST : List String)
    (bi : BackupInfo) (server_major_version : String) : List Job :=
  let (exclude, ts_jobs) := tablespace_loop bi.pgdata EXCLUDE_LIST
    server_major_version bi.tablespaces
  ts_jobs ++
    .uploadDirectory "pgdata" bi.pgdata "data"
      (some (PGDATA_EXCLUDE_LIST ++ EXCLUDE_LIST ++ exclude)) none ::
    .addFile "pg_control" (bi.pgdata ++ "/global/pg_control") "data"
      "global/pg_control" false ::
    config_file_jobs bi.config_files

/-- `S3UploadController.add_file` (cloud_backup.py lines 517-523): the
arcnames added to the destination tar.  If `optional` is set and the
source path does not exist, nothing is added. -/
def add_file (os_path_exists : String → Bool) (src path : String)
    (optional : Bool) : List String :=
  if optional && !os_path_exists src then [] else [path]

theorem tablespace_loop_eq (pgdata : String) (EX : List String)
    (ver : String) (l : List Tablespace) :
    tablespace_loop pgdata EX ver l =
      (l.flatMap (tsExcludes pgdata), l.map (tsJob EX ver)) := by
  induction l with
  | nil => rfl
  | cons ts rest ih => simp [tablespace_loop, ih]

/-- The exclusion list passed to the PGDATA `upload_directory` job. -/
def pgdata_exclude (PGDATA_EXCLUDE_LIST EXCLUDE_LIST : List String)
    (bi : BackupInfo) : List String :=
  PGDATA_EXCLUDE_LIST ++ EXCLUDE_LIST ++
    bi.tablespaces.flatMap (tsExcludes bi.pgdata)

theorem dropLast_isPrefixOf_self (l : List Char) :
    l.dropLast.isPrefixOf l = true := by
  induction l with
  | nil => rfl
  | cons c cs ih =>
      cases cs with
      | nil => rfl
      | cons c2 cs2 =>
          rw [List.dropLast_cons₂, List.isPrefixOf, Bool.and_eq_true]
          exact ⟨beq_self_eq_true c, ih⟩

/-- Every pattern component matches itself. -/
theorem compMatch_self (p : String) : compMatch p p = true := by
  unfold compMatch
  split
  · rfl
  · split
    · exact dropLast_isPrefixOf_self p.data
    · simp

/-- Every pattern matches its own component list. -/
theorem patMatch_self (ps : List String) : patMatch ps ps = true := by
  induction ps with
  | nil => rfl
  | cons p ps ih => rw [patMatch, Bool.and_eq_true]; exact ⟨compMatch_self p, ih⟩

/-- A path appearing in the exclude list (with no include list) is
rejected by the filter. -/
theorem path_allowed_self_excluded (exc : List String) (pat : String)
    (hmem : pat ∈ exc) (is_dir : Bool) :
    path_allowed (some exc) none (splitPath pat) is_dir = false := by
  simp only [path_allowed, Bool.not_eq_true', decide_eq_false_iff_not,
    not_not, List.any_eq_true]
  exact ⟨pat, hmem, patMatch_self _⟩

/-- **C2.** `backup_copy` schedules one upload job per tablespace, in
order, before the PGDATA job; for every tablespace `pg_tblspc/<oid>` is in
the PGDATA exclusion list, and when the tablespace location starts with
`pgdata` the pgdata-relative remainder is in it too; and consequently the
PGDATA job — which carries that exclusion list and no include list —
adds no tar entry at or below either excluded path, on any source tree, so
a tablespace's contents are transferred only by its own job. -/
theorem C2_backup_copy_tablespaces (PG EX : List String) (bi : BackupInfo)
    (ver : String) :
    (∃ rest, backup_copy PG EX bi ver =
        bi.tablespaces.map (tsJob EX ver) ++
          Job.uploadDirectory "pgdata" bi.pgdata "data"
            (some (pgdata_exclude PG EX bi)) none :: rest) ∧
    (∀ ts ∈ bi.tablespaces,
      ("pg_tblspc/" ++ toString ts.oid) ∈ pgdata_exclude PG EX bi ∧
      (startswith ts.location bi.pgdata = true →
        sliceFrom ts.location bi.pgdata.data.length ∈
          pgdata_exclude PG EX bi) ∧
      (∀ (tree : List FSTree) (e : TarEntry),
        e ∈ upload_directory (some (pgdata_exclude PG EX bi)) none tree →
        ¬ splitPath ("pg_tblspc/" ++ toString ts.oid) <+: e.path ∧
        (startswith ts.location bi.pgdata = true →
          ¬ splitPath (sliceFrom ts.location bi.pgdata.data.length) <+:
            e.path))) := by
  have hmem_link : ∀ ts ∈ bi.tablespaces,
      ("pg_tblspc/" ++ toString ts.oid) ∈ pgdata_exclude PG EX bi := by
    intro ts hts
    unfold pgdata_exclude
    refine List.mem_append.2 (Or.inr (List.mem_flatMap.2 ⟨ts, hts, ?_⟩))
    unfold tsExcludes
    exact List.mem_append.2 (Or.inr (List.mem_singleton.2 rfl))
  have hmem_rel : ∀ ts ∈ bi.tablespaces,
      startswith ts.location bi.pgdata = true →
      sliceFrom ts.location bi.pgdata.data.length ∈
        pgdata_exclude PG EX bi := by
    intro ts hts hsw
    unfold pgdata_exclude
    refine List.mem_append.2 (Or.inr (List.mem_flatMap.2 ⟨ts, hts, ?_⟩))
    unfold tsExcludes
    rw [if_pos hsw]
    exact List.mem_append.2 (Or.inl (List.mem_singleton.2 rfl))
  refine ⟨⟨Job.addFile "pg_control" (bi.pgdata ++ "/global/pg_control")
      "data" "global/pg_control" false :: config_file_jobs bi.config_files,
      ?_⟩, ?_⟩
  · unfold backup_copy
    rw [tablespace_loop_eq]
    simp [pgdata_exclude]
  · intro ts hts
    refine ⟨hmem_link ts hts, hmem_rel ts hts, ?_⟩
    intro tree e he
    constructor
    · exact no_descendant_of_excluded _ _ tree
        (path_allowed_self_excluded _ _ (hmem_link ts hts) true) e he
    · intro hsw
      exact no_descendant_of_excluded _ _ tree
        (path_allowed_self_excluded _ _ (hmem_rel ts hts hsw) true) e he

/-- Every `add_file` job produced by the configuration-file loop is
optional exactly when its label (the file type) is `ident_file`. -/
theorem config_file_jobs_optional_iff (cfs : List ConfigFile) :
    ∀ (l s d p : String) (b : Bool),
      Job.addFile l s d p b ∈ config_file_jobs cfs →
      (b = true ↔ l = "ident_file") := by
  induction cfs with
  | nil =>
      intro l s d p b h
      rw [config_file_jobs] at h
      exact absurd h (List.not_mem_nil _)
  | cons cf rest ih =>
      intro l s d p b h
      rw [config_file_jobs] at h
      split at h
      · exact ih l s d p b h
      · rcases List.mem_cons.1 h with heq | hmem
        · obtain ⟨h1, -, -, -, h5⟩ := Job.addFile.inj heq
          subst h1; subst h5
          simp
        · exact ih l s d p b hmem

/-- Every non-`include` external configuration file yields its `add_file`
job in the configuration-file loop. -/
theorem config_file_jobs_mem (cfs : List ConfigFile) :
    ∀ cf ∈ cfs, cf.file_type ≠ "include" →
      Job.addFile cf.file_type cf.path "data" (os_path_basename cf.path)
        (cf.file_type = "ident_file") ∈ config_file_jobs cfs := by
  induction cfs with
  | nil => intro cf h; exact absurd h (List.not_mem_nil _)
  | cons cf0 rest ih =>
      intro cf hmem hne
      rw [config_file_jobs]
      rcases List.mem_cons.1 hmem with rfl | hmem'
      · rw [if_neg hne]
        exact List.mem_cons_self _ _
      · split
        · exact ih cf hmem' hne
        · exact List.mem_cons_of_mem _ (ih cf hmem' hne)

/-- **C8.** `add_file` with `optional=True` adds no tar entry when the
source path does not exist (and adds exactly the requested entry
otherwise); among the external configuration file jobs created by
`backup_copy`, every non-`include` file gets a job whose `optional` flag
is set exactly when the file type is `ident_file`, so an absent
`ident_file` is silently skipped while `config_file` and `hba_file`
remain required. -/
theorem C8_optional_ident_file (PG EX : List String) (bi : BackupInfo)
    (ver : String) :
    (∀ (fs : String → Bool) (src path : String),
        fs src = false → add_file fs src path true = []) ∧
    (∀ (fs : String → Bool) (src path : String) (opt : Bool),
        opt = false ∨ fs src = true → add_file fs src path opt = [path]) ∧
    (∀ cf ∈ bi.config_files, cf.file_type ≠ "include" →
        Job.addFile cf.file_type cf.path "data" (os_path_basename cf.path)
          (cf.file_type = "ident_file") ∈ backup_copy PG EX bi ver) ∧
    (∀ (l s d p : String) (b : Bool),
        Job.addFile l s d p b ∈ config_file_jobs bi.config_files →
        (b = true ↔ l = "ident_file")) := by
  refine ⟨?_, ?_, ?_, config_file_jobs_optional_iff bi.config_files⟩
  · intro fs src path h
    simp [add_file, h]
  · intro fs src path opt h
    rcases h with h | h <;> simp [add_file, h]
  · intro cf hmem hne
    unfold backup_copy
    rw [tablespace_loop_eq]
    refine List.mem_append.2 (Or.inr ?_)
    exact List.mem_cons_of_mem _ (List.mem_cons_of_mem _
      (config_file_jobs_mem bi.config_files cf hmem hne))

end Barman

namespace Barman

/-! ## CloudInterface destination URL validation
(cloud_backup.py lines 562-588) -/

/-- An exception value raised by the modelled code.  `valueError` is
Python's builtin `ValueError`, which is what `CloudInterface.__init__`
raises; `configurationError` models the `ConfigurationError` of the
spec's error taxonomy (§7), whose defining module is not under `src/`. -/
inductive PyError where
  | valueError (msg : String)
  | configurationError (msg : String)
  deriving Repr, DecidableEq

/-- Return the part before the first occurrence of `sep` and the part
after it, or `none` when `sep` does not occur. -/
def breakAt (sep : Char) : List Char → Option (List Char × List Char)
  | [] => none
  | c :: rest =>
      if c = sep then some ([], rest)
      else (breakAt sep rest).map (fun p => (c :: p.1, p.2))

/-- The three URL components `CloudInterface.__init__` reads. -/
structure UrlParts where
  scheme : String
  netloc : String
  path : String
  deriving Repr, DecidableEq

/-- Modelled from the Python standard library: `urlparse` restricted to
the three components the code reads.  The scheme is the part before the
first `:`; the network location is present only when the scheme is
followed by `//` and extends to the next `/`; the rest is the path.  A
URL without a `:` has empty scheme and netloc. -/
def urlparse (url : String) : UrlParts :=
  match breakAt ':' url.data with
  | none => ⟨"", "", url⟩
  | some (pre, post) =>
      if post.take 2 = ['/', '/'] then
        let rest := post.drop 2
        let netloc := rest.takeWhile (· ≠ '/')
        ⟨pre.asString, netloc.asString, (rest.drop netloc.length).asString⟩
      else ⟨pre.asString, "", post.asString⟩

/-- The fields of a successfully constructed `CloudInterface`. -/
structure CloudInterface where
  destination_url : String
  bucket_name : String
  path : String
  deriving Repr, DecidableEq

/-- `CloudInterface.__init__` (lines 576-582): parse the destination URL;
if the netloc is empty or the scheme is not `s3`, raise
`ValueError('Invalid s3 URL address: …')`; otherwise store netloc as
`bucket_name` and the parsed path as `path`.  The boto3 session is
created only after this check. -/
def CloudInterface.init (destination_url : String) :
    Except PyError CloudInterface :=
  let parsed := urlparse destination_url
  if parsed.netloc = "" ∨ parsed.scheme ≠ "s3" then
    .error (.valueError ("Invalid s3 URL address: " ++ destination_url))
  else
    .ok ⟨destination_url, parsed.netloc, parsed.path⟩

/-- **C3, counterexample.** Construction from a non-`s3` URL fails with
Python's builtin `ValueError`, which is not the `ConfigurationError` of
the spec's error taxonomy, so "construction fails with
ConfigurationError" is false as stated. -/
theorem C3_counterexample_valueError :
    CloudInterface.init "http://bucket/path" =
      Except.error
        (PyError.valueError "Invalid s3 URL address: http://bucket/path") ∧
    PyError.valueError "Invalid s3 URL address: http://bucket/path" ≠
      PyError.configurationError
        "Invalid s3 URL address: http://bucket/path" := by
  constructor
  · rfl
  · decide

/-- **C3, amended.** Constructing a `CloudInterface` from a destination
URL succeeds exactly when the parsed scheme is `s3` and the parsed netloc
(bucket) is non-empty; on success `bucket_name` and `path` are exactly the
parsed netloc and path components; otherwise construction fails — with
Python's builtin `ValueError`, not the spec taxonomy's
`ConfigurationError` — during construction, before any network access. -/
theorem C3_cloud_interface_url (url : String) :
    (((urlparse url).scheme = "s3" ∧ (urlparse url).netloc ≠ "") ↔
      ∃ ci, CloudInterface.init url = .ok ci) ∧
    (∀ ci, CloudInterface.init url = .ok ci →
      ci.destination_url = url ∧
      ci.bucket_name = (urlparse url).netloc ∧
      ci.path = (urlparse url).path) ∧
    ((urlparse url).netloc = "" ∨ (urlparse url).scheme ≠ "s3" →
      CloudInterface.init url =
        .error (.valueError ("Invalid s3 URL address: " ++ url))) := by
  unfold CloudInterface.init
  by_cases h : (urlparse url).netloc = "" ∨ (urlparse url).scheme ≠ "s3"
  · rw [if_pos h]
    refine ⟨⟨fun hc => ?_, ?_⟩, ?_, fun _ => rfl⟩
    · rcases h with h | h
      · exact absurd h hc.2
      · exact absurd hc.1 h
    · rintro ⟨ci, hci⟩
      exact absurd hci (by simp)
    · intro ci hci
      exact absurd hci (by simp)
  · rw [if_neg h]
    push_neg at h
    refine ⟨⟨fun _ => ⟨_, rfl⟩, fun _ => ⟨h.2, h.1⟩⟩, ?_,
      fun hc => absurd hc (by push_neg; exact h)⟩
    intro ci hci
    cases hci
    exact ⟨rfl, rfl, rfl⟩

end Barman

namespace Barman

/-! ## StreamingWalArchiver receiver/server compatibility -/

/-- A PostgreSQL version triple `major.minor.patch`. -/
structure PgVersion where
  major : Nat
  minor : Nat
  patch : Nat
  deriving Repr, DecidableEq

/-- Lexicographic `<` on a `major.minor` pair (Python tuple comparison). -/
def mmLt (maj min_ maj' min' : Nat) : Bool :=
  maj < maj' || (maj = maj' && min_ < min')

/-- Lexicographic `≤` on a `major.minor` pair (Python tuple comparison). -/
def mmLe (maj min_ maj' min' : Nat) : Bool :=
  maj < maj' || (maj = maj' && min_ ≤ min')

/-- Modelled from the spec: the `StreamingWalArchiver` compatibility check
between the installed `pg_receivexlog` version and the connected server
version (the streaming archiver module is not under `src/`; only its test
suite is).  The patch component is ignored; if either `major.minor` is
below 9.3, the two are compatible only on an exact `major.minor` match;
otherwise they are compatible iff the receiver `major.minor` is at least
the server `major.minor`.  When either version is unknown — in
particular when the server rejected the streaming connection and the
version probe failed — the result is `none` (unknown), not `false`. -/
def pg_receivexlog_compatible (receiver server : Option PgVersion) :
    Option Bool :=
  match receiver, server with
  | some r, some s =>
      if mmLt r.major r.minor 9 3 || mmLt s.major s.minor 9 3 then
        some (r.major = s.major && r.minor = s.minor)
      else
        some (mmLe s.major s.minor r.major r.minor)
  | _, _ => none

/-- **C4.** The compatibility rule, patch ignored: below 9.3 on either
side only an exact `major.minor` match is compatible, otherwise the
receiver must be at least the server's `major.minor`; a failed server
version probe yields `none`, not `false`.  The six rows of the test
matrix of `src/tests/test_wal_archiver.py` hold of the model. -/
theorem C4_pg_receivexlog_compatible :
    (∀ r : Option PgVersion,
        pg_receivexlog_compatible r none = none ∧
        pg_receivexlog_compatible r none ≠ some false) ∧
    (∀ r s : PgVersion,
        (mmLt r.major r.minor 9 3 || mmLt s.major s.minor 9 3) = true →
        pg_receivexlog_compatible (some r) (some s) =
          some (r.major = s.major && r.minor = s.minor)) ∧
    (∀ r s : PgVersion,
        (mmLt r.major r.minor 9 3 || mmLt s.major s.minor 9 3) = false →
        pg_receivexlog_compatible (some r) (some s) =
          some (mmLe s.major s.minor r.major r.minor)) ∧
    (∀ (a b c c' d e f f' : Nat),
        pg_receivexlog_compatible (some ⟨a, b, c⟩) (some ⟨d, e, f⟩) =
          pg_receivexlog_compatible (some ⟨a, b, c'⟩) (some ⟨d, e, f'⟩)) ∧
    (pg_receivexlog_compatible (some ⟨9, 2, 0⟩) (some ⟨9, 2, 0⟩) =
        some true ∧
      pg_receivexlog_compatible (some ⟨9, 5, 0⟩) (some ⟨9, 2, 0⟩) =
        some false ∧
      pg_receivexlog_compatible (some ⟨9, 5, 0⟩) (some ⟨9, 3, 0⟩) =
        some true ∧
      pg_receivexlog_compatible (some ⟨9, 3, 0⟩) (some ⟨9, 5, 0⟩) =
        some false ∧
      pg_receivexlog_compatible (some ⟨9, 4, 4⟩) (some ⟨9, 4, 5⟩) =
        some true) := by
  refine ⟨?_, ?_, ?_, ?_, by decide, by decide, by decide, by decide,
    by decide⟩
  · intro r
    cases r <;> exact ⟨rfl, by simp [pg_receivexlog_compatible]⟩
  · intro r s h
    simp [pg_receivexlog_compatible, h]
  · intro r s h
    simp [pg_receivexlog_compatible, h]
  · intro a b c c' d e f f'
    rfl

end Barman

namespace Barman

/-! ## main entry point (cloud_backup.py lines 83-125) -/

/-- The environment a `main` run interacts with: whether the PostgreSQL
connection object can be constructed, the destination URL, the `--test`
flag, and the outcomes of the connectivity test, the bucket setup and the
backup itself (`false` means the step raises an exception). -/
structure MainEnv where
  pg_connect_ok : Bool
  destination_url : String
  test : Bool
  connectivity_ok : Bool
  setup_bucket_ok : Bool
  backup_ok : Bool
  deriving Repr, DecidableEq

/-- The observable outcome of a `main` run: the process exit code, whether
a PostgreSQL connection was opened, and whether it was closed. -/
structure MainOutcome where
  exit_code : Nat
  pg_opened : Bool
  pg_closed : Bool
  deriving Repr, DecidableEq

/-- `main` (lines 83-125): inside `try`, build the connection, construct
the `CloudInterface` (which may raise `ValueError`), and either run the
`--test` connectivity check (raising `SystemExit(0)`/`SystemExit(1)`,
which as a `BaseException` is not caught by `except Exception`) or set up
the bucket and perform the backup.  Any `Exception` is caught and turned
into `SystemExit(1)`; the `finally` block closes the PostgreSQL
connection whenever it was opened, on every exit path. -/
def main (e : MainEnv) : MainOutcome :=
  if ¬ e.pg_connect_ok then
    -- the connection constructor raised: `postgres` is still None,
    -- the handler exits 1 and `finally` has nothing to close
    ⟨1, false, false⟩
  else
    match CloudInterface.init e.destination_url with
    | .error _ => ⟨1, true, true⟩
    | .ok _ =>
        if e.test then
          if e.connectivity_ok then ⟨0, true, true⟩ else ⟨1, true, true⟩
        else if ¬ e.setup_bucket_ok then ⟨1, true, true⟩
        else if ¬ e.backup_ok then ⟨1, true, true⟩
        else ⟨0, true, true⟩

/-- **C6.** `main` exits 0 on success and 1 on any error raised inside the
run; with `--test` it exits 0 exactly when the object store is reachable
and 1 otherwise; the exit code is always 0 or 1; and on every exit path an
opened PostgreSQL connection is closed. -/
theorem C6_main_exit_codes (e : MainEnv) :
    ((main e).exit_code = 0 ∨ (main e).exit_code = 1) ∧
    ((main e).exit_code = 0 ↔
      e.pg_connect_ok = true ∧
      (∃ ci, CloudInterface.init e.destination_url = .ok ci) ∧
      ((e.test = true ∧ e.connectivity_ok = true) ∨
        (e.test = false ∧ e.setup_bucket_ok = true ∧
          e.backup_ok = true))) ∧
    (e.pg_connect_ok = true →
      (∃ ci, CloudInterface.init e.destination_url = .ok ci) →
      e.test = true →
      ((main e).exit_code = 0 ↔ e.connectivity_ok = true)) ∧
    ((main e).pg_opened = true → (main e).pg_closed = true) := by
  obtain ⟨pg, url, test, conn, setup, backup⟩ := e
  unfold main
  cases hci : CloudInterface.init url with
  | error err =>
      cases pg <;> cases test <;> cases conn <;> cases setup <;>
        cases backup <;>
        simp_all
  | ok ci =>
      cases pg <;> cases test <;> cases conn <;> cases setup <;>
        cases backup <;>
        simp_all

end Barman

namespace Barman

/-! ## FileWalArchiver.get_remote_status (src/barman/wal_archiver.py) -/

/-- An error raised by a PostgreSQL probe: a connection error
(`PostgresConnectionError`) or a query error (`psycopg2.Error`). -/
inductive PgProbeError where
  | connectionError
  | queryError
  deriving Repr, DecidableEq

/-- The PostgreSQL-facing behaviour `get_remote_status` depends on:
the outcome of `get_setting` for the two settings, and the result of
`get_archiver_stats`, which per its contract returns `None` (rather than
raising) when the `pg_stat_archiver` view is unsupported or unreachable
(the `barman.postgres` module is outside `src/`). -/
structure PgConnProbe where
  archive_mode : Except PgProbeError String
  archive_command : Except PgProbeError String
  archiver_stats : Option (List (String × Option String))
  deriving Repr

/-- Set key `k` to `v` in an association list, Python-`dict.update` style:
an existing binding is replaced in place, a new key is appended. -/
def dictSet (m : List (String × Option String)) (k : String)
    (v : Option String) : List (String × Option String) :=
  match m with
  | [] => [(k, v)]
  | (k', v') :: rest =>
      if k' = k then (k, v) :: rest else (k', v') :: dictSet rest k v

/-- Python `dict.update`. -/
def dictUpdate (m upd : List (String × Option String)) :
    List (String × Option String) :=
  upd.foldl (fun acc kv => dictSet acc kv.1 kv.2) m

/-- `FileWalArchiver.get_remote_status` (wal_archiver.py lines 62-86):
start from `{'archive_mode': None, 'archive_command': None}`; inside
`try`, query `archive_mode` then `archive_command` (an error in the first
leaves both `None`; an error in the second leaves only the second
`None`); then merge in the `pg_stat_archiver` statistics when the view is
supported.  Every probe outcome yields a returned mapping — no exception
escapes. -/
def get_remote_status (p : PgConnProbe) : List (String × Option String) :=
  let result : List (String × Option String) :=
    [("archive_mode", none), ("archive_command", none)]
  let result :=
    match p.archive_mode with
    | .error _ => result
    | .ok m =>
        let result := dictSet result "archive_mode" (some m)
        match p.archive_command with
        | .error _ => result
        | .ok c => dictSet result "archive_command" (some c)
  match p.archiver_stats with
  | none => result
  | some stats => dictUpdate result stats

/-- `dictSet` preserves presence of any key. -/
theorem dictSet_preserves_key (m : List (String × Option String))
    (k k' : String) (v : Option String)
    (h : (m.lookup k).isSome = true) :
    ((dictSet m k' v).lookup k).isSome = true := by
  induction m with
  | nil => simp [List.lookup] at h
  | cons kv rest ih =>
      obtain ⟨k0, v0⟩ := kv
      rw [List.lookup] at h
      rw [dictSet]
      by_cases hk : k0 = k'
      · rw [if_pos hk]
        cases hbeq : k == k' with
        | true => simp [List.lookup, hbeq]
        | false =>
            rw [hk, hbeq] at h
            simp only [List.lookup, hbeq]
            exact h
      · rw [if_neg hk]
        cases hbeq : k == k0 with
        | true => simp [List.lookup, hbeq]
        | false =>
            rw [hbeq] at h
            simp only [List.lookup, hbeq]
            exact ih h

/-- `dictUpdate` preserves presence of any key. -/
theorem dictUpdate_preserves_key (upd m : List (String × Option String))
    (k : String) (h : (m.lookup k).isSome = true) :
    ((dictUpdate m upd).lookup k).isSome = true := by
  induction upd generalizing m with
  | nil => exact h
  | cons kv rest ih =>
      rw [dictUpdate] at *
      exact ih _ (dictSet_preserves_key m k kv.1 kv.2 h)

/-- **C7.** `FileWalArchiver.get_remote_status` never raises: for every
outcome of the underlying probes it returns a mapping that contains the
keys `archive_mode` and `archive_command`; when the settings query fails
the affected fields are `None`, and a failure of the first query leaves
both `None`. -/
theorem C7_file_wal_archiver_remote_status (p : PgConnProbe) :
    ((get_remote_status p).lookup "archive_mode").isSome = true ∧
    ((get_remote_status p).lookup "archive_command").isSome = true ∧
    (∀ e, p.archive_mode = .error e → p.archiver_stats = none →
        get_remote_status p =
          [("archive_mode", none), ("archive_command", none)]) ∧
    (∀ m e, p.archive_mode = .ok m → p.archive_command = .error e →
        p.archiver_stats = none →
        get_remote_status p =
          [("archive_mode", some m), ("archive_command", none)]) := by
  obtain ⟨am, ac, stats⟩ := p
  refine ⟨?_, ?_, ?_, ?_⟩
  · cases stats with
    | none =>
        cases am <;> cases ac <;>
          simp [get_remote_status, dictSet, List.lookup]
    | some s =>
        cases am <;> cases ac <;>
          exact dictUpdate_preserves_key s _ _
            (by simp [dictSet, List.lookup])
  · cases stats with
    | none =>
        cases am <;> cases ac <;>
          simp [get_remote_status, dictSet, List.lookup]
    | some s =>
        cases am <;> cases ac <;>
          exact dictUpdate_preserves_key s _ _
            (by simp [dictSet, List.lookup])
  · intro e hmode hstats
    dsimp only at hmode hstats
    subst hstats
    subst hmode
    simp [get_remote_status]
  · intro m e hmode hcmd hstats
    dsimp only at hmode hcmd hstats
    subst hstats
    subst hmode
    subst hcmd
    simp [get_remote_status, dictSet]

end Barman

namespace Barman

/-! ## S3UploadController (cloud_backup.py lines 461-559) -/

/-- Set key `k` to `v` in an association list (Python `d[k] = v`):
overwriting keeps the key's position, a new key is appended. -/
def assocSet {β : Type} (m : List (String × β)) (k : String) (v : β) :
    List (String × β) :=
  match m with
  | [] => [(k, v)]
  | (k0, v0) :: rest =>
      if k0 = k then (k, v) :: rest else (k0, v0) :: assocSet rest k v

/-- The state of an `S3UploadController`: the `s3_list` dict mapping each
destination name to its `S3TarUploader` (or `None` once closed), plus the
log of destinations whose multipart upload has been completed by
`close()`. -/
structure S3UploadController where
  s3_list : List (String × Option S3TarUploader)
  completed : List String
  deriving Repr, DecidableEq

/-- A fresh controller: empty `s3_list`. -/
def controller_init : S3UploadController := ⟨[], []⟩

/-- The uploader `_get_tar(name)` returns: the existing one when
`s3_list[name]` is present and not `None`, otherwise a fresh
`S3TarUploader`. -/
def tarFor (st : S3UploadController) (dst : String) : S3TarUploader :=
  match st.s3_list.lookup dst with
  | some (some u) => u
  | _ => S3TarUploader.init DEFAULT_CHUNK_SIZE

/-- One write of tar content to destination `dst`, as performed by
`upload_directory`, `add_file` and `add_fileobj`: fetch (or lazily
create) the destination's uploader via `_get_tar` and append the bytes to
it. -/
def controller_write (st : S3UploadController) (dst : String)
    (buf : List Nat) : S3UploadController :=
  { st with
    s3_list := assocSet st.s3_list dst (some ((tarFor st dst).write buf)) }

/-- Run a sequence of writes against a controller. -/
def controller_run : List (String × List Nat) → S3UploadController →
    S3UploadController
  | [], st => st
  | (dst, buf) :: ops, st => controller_run ops (controller_write st dst buf)

/-- The destinations whose stream is currently open. -/
def openKeys (st : S3UploadController) : List String :=
  st.s3_list.filterMap fun nv =>
    match nv.2 with
    | some _ => some nv.1
    | none => none

/-- `S3UploadController.close` (lines 548-554): for every name in
`s3_list`, finalize the stream if it is open — one multipart completion,
recorded in `completed` — and replace the entry's value with `None`. -/
def controller_close (st : S3UploadController) : S3UploadController :=
  { s3_list := st.s3_list.map fun nv => (nv.1, none)
    completed := st.completed ++ openKeys st }

/-- The payloads written to a given destination, in order. -/
def payloadsFor (dst : String) (ops : List (String × List Nat)) :
    List (List Nat) :=
  (ops.filter fun op => op.1 = dst).map Prod.snd

theorem assocSet_lookup {β : Type} (m : List (String × β)) (k k' : String)
    (v : β) :
    (assocSet m k v).lookup k' = if k' = k then some v else m.lookup k' := by
  induction m with
  | nil =>
      by_cases h : k' = k
      · simp [assocSet, List.lookup, h]
      · simp [assocSet, List.lookup, h, beq_eq_false_iff_ne.2 h]
  | cons kv rest ih =>
      obtain ⟨k0, v0⟩ := kv
      rw [assocSet]
      by_cases h0 : k0 = k
      · rw [if_pos h0]
        by_cases h : k' = k
        · simp [List.lookup, h]
        · subst h0
          simp [List.lookup, beq_eq_false_iff_ne.2 h, h]
      · rw [if_neg h0]
        by_cases h1 : k' = k0
        · subst h1
          have : ¬ k' = k := fun hc => h0 (hc ▸ rfl)
          simp [List.lookup, this]
        · simp [List.lookup, beq_eq_false_iff_ne.2 h1, ih]

theorem assocSet_keys {β : Type} (m : List (String × β)) (k : String)
    (v : β) :
    (assocSet m k v).map Prod.fst =
      if k ∈ m.map Prod.fst then m.map Prod.fst
      else m.map Prod.fst ++ [k] := by
  induction m with
  | nil => simp [assocSet]
  | cons kv rest ih =>
      obtain ⟨k0, v0⟩ := kv
      rw [assocSet]
      by_cases h0 : k0 = k
      · subst h0
        simp
      · have : ¬ k = k0 := fun hc => h0 (hc ▸ rfl)
        rw [if_neg h0]
        simp only [List.map_cons, List.mem_cons]
        rw [ih]
        by_cases hk : k ∈ rest.map Prod.fst
        · simp [hk, this]
        · simp [hk, this]

theorem assocSet_mem {β : Type} (m : List (String × β)) (k : String)
    (v : β) (kv : String × β) (h : kv ∈ assocSet m k v) :
    kv = (k, v) ∨ kv ∈ m := by
  induction m with
  | nil =>
      rw [assocSet] at h
      exact Or.inl (List.mem_singleton.1 h)
  | cons kv0 rest ih =>
      obtain ⟨k0, v0⟩ := kv0
      rw [assocSet] at h
      split at h
      · rcases List.mem_cons.1 h with rfl | hm
        · exact Or.inl rfl
        · exact Or.inr (List.mem_cons_of_mem _ hm)
      · rcases List.mem_cons.1 h with rfl | hm
        · exact Or.inr (List.mem_cons_self _ _)
        · rcases ih hm with h1 | h1
          · exact Or.inl h1
          · exact Or.inr (List.mem_cons_of_mem _ h1)

theorem tarFor_controller_write (st : S3UploadController) (d dst : String)
    (b : List Nat) :
    tarFor (controller_write st d b) dst =
      if dst = d then (tarFor st d).write b else tarFor st dst := by
  by_cases h : dst = d
  · subst h
    rw [if_pos rfl]
    unfold tarFor controller_write
    dsimp only
    rw [assocSet_lookup, if_pos rfl]
    rfl
  · rw [if_neg h]
    unfold tarFor controller_write
    dsimp only
    rw [assocSet_lookup, if_neg h]

theorem keys_controller_write (st : S3UploadController) (d : String)
    (b : List Nat) :
    (controller_write st d b).s3_list.map Prod.fst =
      if d ∈ st.s3_list.map Prod.fst then st.s3_list.map Prod.fst
      else st.s3_list.map Prod.fst ++ [d] := by
  unfold controller_write
  dsimp only
  rw [assocSet_keys]

theorem nodup_controller_write (st : S3UploadController) (d : String)
    (b : List Nat) (h : (st.s3_list.map Prod.fst).Nodup) :
    ((controller_write st d b).s3_list.map Prod.fst).Nodup := by
  rw [keys_controller_write]
  split
  · exact h
  · next hd =>
      rw [List.nodup_append]
      exact ⟨h, List.nodup_singleton d,
        fun a ha hb => (List.mem_singleton.1 hb ▸ hd) ha⟩

theorem values_controller_write (st : S3UploadController) (d : String)
    (b : List Nat) (h : ∀ kv ∈ st.s3_list, kv.2.isSome = true) :
    ∀ kv ∈ (controller_write st d b).s3_list, kv.2.isSome = true := by
  intro kv hkv
  rcases assocSet_mem _ _ _ kv hkv with rfl | hm
  · rfl
  · exact h kv hm

theorem completed_controller_run (ops : List (String × List Nat))
    (st : S3UploadController) :
    (controller_run ops st).completed = st.completed := by
  induction ops generalizing st with
  | nil => rfl
  | cons op ops ih =>
      obtain ⟨d, b⟩ := op
      rw [controller_run, ih]
      rfl

theorem tarFor_controller_run (ops : List (String × List Nat))
    (st : S3UploadController) (dst : String) :
    tarFor (controller_run ops st) dst =
      (tarFor st dst).runWrites (payloadsFor dst ops) := by
  induction ops generalizing st with
  | nil => rfl
  | cons op ops ih =>
      obtain ⟨d, b⟩ := op
      rw [controller_run, ih, tarFor_controller_write]
      unfold payloadsFor
      rw [List.filter_cons]
      by_cases h : dst = d
      · rw [if_pos h]
        have hdec : (decide ((d, b).1 = dst)) = true :=
          decide_eq_true (h ▸ rfl)
        rw [if_pos hdec, List.map_cons]
        subst h
        rfl
      · rw [if_neg h]
        have hdec : (decide ((d, b).1 = dst)) = false :=
          decide_eq_false (fun hc => h (hc ▸ rfl))
        rw [hdec]
        simp only [Bool.false_eq_true, if_false]

theorem keys_controller_run_mem (ops : List (String × List Nat))
    (st : S3UploadController) (dst : String) :
    dst ∈ (controller_run ops st).s3_list.map Prod.fst ↔
      dst ∈ st.s3_list.map Prod.fst ∨ dst ∈ ops.map Prod.fst := by
  induction ops generalizing st with
  | nil => simp [controller_run]
  | cons op ops ih =>
      obtain ⟨d, b⟩ := op
      rw [controller_run, ih, keys_controller_write]
      split
      · next hd =>
          simp only [List.map_cons, List.mem_cons]
          constructor
          · rintro (h | h)
            · exact Or.inl h
            · exact Or.inr (Or.inr h)
          · rintro (h | h)
            · exact Or.inl h
            · rcases h with rfl | h
              · exact Or.inl hd
              · exact Or.inr h
      · simp only [List.mem_append, List.mem_cons, List.not_mem_nil,
          or_false, List.map_cons]
        constructor
        · rintro ((h | h) | h)
          · exact Or.inl h
          · exact Or.inr (Or.inl h)
          · exact Or.inr (Or.inr h)
        · rintro (h | h)
          · exact Or.inl (Or.inl h)
          · rcases h with rfl | h
            · exact Or.inl (Or.inr rfl)
            · exact Or.inr h

theorem nodup_controller_run (ops : List (String × List Nat))
    (st : S3UploadController) (h : (st.s3_list.map Prod.fst).Nodup) :
    ((controller_run ops st).s3_list.map Prod.fst).Nodup := by
  induction ops generalizing st with
  | nil => exact h
  | cons op ops ih =>
      obtain ⟨d, b⟩ := op
      rw [controller_run]
      exact ih _ (nodup_controller_write st d b h)

theorem values_controller_run (ops : List (String × List Nat))
    (st : S3UploadController)
    (h : ∀ kv ∈ st.s3_list, kv.2.isSome = true) :
    ∀ kv ∈ (controller_run ops st).s3_list, kv.2.isSome = true := by
  induction ops generalizing st with
  | nil => exact h
  | cons op ops ih =>
      obtain ⟨d, b⟩ := op
      rw [controller_run]
      exact ih _ (values_controller_write st d b h)

theorem openKeys_eq_keys_aux (l : List (String × Option S3TarUploader))
    (h : ∀ kv ∈ l, kv.2.isSome = true) :
    (l.filterMap fun nv =>
        match nv.2 with
        | some _ => some nv.1
        | none => none) = l.map Prod.fst := by
  induction l with
  | nil => rfl
  | cons kv rest ih =>
      obtain ⟨k0, v0⟩ := kv
      have h0 := h (k0, v0) (List.mem_cons_self _ _)
      rw [List.filterMap_cons, List.map_cons]
      cases v0 with
      | none => exact absurd h0 (by simp)
      | some u =>
          dsimp only
          rw [ih (fun kv hkv => h kv (List.mem_cons_of_mem _ hkv))]

theorem openKeys_eq_keys (st : S3UploadController)
    (h : ∀ kv ∈ st.s3_list, kv.2.isSome = true) :
    openKeys st = st.s3_list.map Prod.fst :=
  openKeys_eq_keys_aux st.s3_list h

theorem map_close_idem (l : List (String × Option S3TarUploader)) :
    ((l.map fun nv => ((nv.1 : String), (none : Option S3TarUploader))).map
        fun nv => ((nv.1 : String), (none : Option S3TarUploader))) =
      l.map fun nv => ((nv.1 : String), (none : Option S3TarUploader)) := by
  rw [List.map_map]
  rfl

theorem openKeys_after_close (l : List (String × Option S3TarUploader)) :
    ((l.map fun nv =>
        ((nv.1 : String), (none : Option S3TarUploader))).filterMap
      fun nv =>
        match nv.2 with
        | some _ => some nv.1
        | none => none) = [] := by
  induction l with
  | nil => rfl
  | cons kv rest ih =>
      simp only [List.map_cons, List.filterMap_cons]
      exact ih

/-- A second `close()` call performs no further completion and leaves the
controller unchanged: every `s3_list` value is already `None`. -/
theorem controller_close_idem (st : S3UploadController) :
    controller_close (controller_close st) = controller_close st := by
  simp only [controller_close, openKeys]
  rw [S3UploadController.mk.injEq]
  exact ⟨map_close_idem st.s3_list,
    by rw [openKeys_after_close, List.append_nil]⟩

/-- **C10.** Running any sequence of tar writes (from `upload_directory`,
`add_file`, `add_fileobj`) against a fresh `S3UploadController`: the
`s3_list` keys are exactly the destinations used, without duplicates
(one stream per destination, created lazily on first use); the stream of
each destination has received exactly that destination's payloads, in
order, starting from a fresh `S3TarUploader`; `close()` completes every
open stream exactly once — its completion log is the duplicate-free key
list — sets every `s3_list` value to `None`, and a repeated `close()` is
the identity, so no destination gets a second multipart completion. -/
theorem C10_controller_one_stream_per_dst (ops : List (String × List Nat)) :
    ((controller_run ops controller_init).s3_list.map Prod.fst).Nodup ∧
    (∀ dst,
      dst ∈ (controller_run ops controller_init).s3_list.map Prod.fst ↔
        dst ∈ ops.map Prod.fst) ∧
    (∀ dst, tarFor (controller_run ops controller_init) dst =
        S3TarUploader.runWrites (S3TarUploader.init DEFAULT_CHUNK_SIZE)
          (payloadsFor dst ops)) ∧
    ((controller_close (controller_run ops controller_init)).completed =
      (controller_run ops controller_init).s3_list.map Prod.fst) ∧
    ((controller_close
        (controller_run ops controller_init)).completed.Nodup) ∧
    (∀ kv ∈ (controller_close
        (controller_run ops controller_init)).s3_list, kv.2 = none) ∧
    controller_close (controller_close
        (controller_run ops controller_init)) =
      controller_close (controller_run ops controller_init) := by
  have hvals : ∀ kv ∈ (controller_run ops controller_init).s3_list,
      kv.2.isSome = true :=
    values_controller_run ops controller_init
      (by intro kv h; exact absurd h (List.not_mem_nil kv))
  have hnodup : ((controller_run ops
      controller_init).s3_list.map Prod.fst).Nodup :=
    nodup_controller_run ops controller_init (by simp [controller_init])
  have hcompleted : (controller_close
      (controller_run ops controller_init)).completed =
      (controller_run ops controller_init).s3_list.map Prod.fst := by
    show (controller_run ops controller_init).completed ++
        openKeys (controller_run ops controller_init) = _
    rw [completed_controller_run, openKeys_eq_keys _ hvals]
    rfl
  refine ⟨hnodup, ?_, ?_, hcompleted, ?_, ?_, controller_close_idem _⟩
  · intro dst
    rw [keys_controller_run_mem]
    simp [controller_init]
  · intro dst
    rw [tarFor_controller_run]
    rfl
  · rw [hcompleted]
    exact hnodup
  · intro kv hkv
    obtain ⟨kv0, -, rfl⟩ := List.mem_map.1 hkv
    rfl

end Barman

namespace Barman

/-! ## WAL catalog (xlogdb) line format

`barman.infofile.WalFileInfo` is not under `src/`; its unit test
(`src/tests/test_infofile.py`, `test_to_xlogdb_line`) pins the rendered
format, and the spec (§6) gives the line format
`name\tsize\tmtime\tcompression\n` with the literal absent-value token for
a null compression. -/

/-- Modelled from the spec: a WAL catalog entry.  `time` (the mtime
column) is modelled as a natural number, as in the unit test
(`wfile_info.time = 43`). -/
structure WalFileInfo where
  name : String
  size : Nat
  time : Nat
  compression : Option String
  deriving Repr, DecidableEq

/-- The compression column: Python's `%s` of `None` is the literal token
`"None"`. -/
def compression_token : Option String → String
  | none => "None"
  | some c => c

/-- Modelled from the spec: `WalFileInfo.to_xlogdb_line`, the line
`name\tsize\tmtime\tcompression\n` (pinned byte-for-byte by the unit
test). -/
def to_xlogdb_line (w : WalFileInfo) : String :=
  w.name ++ "\t" ++ Nat.repr w.size ++ "\t" ++ Nat.repr w.time ++ "\t" ++
    compression_token w.compression ++ "\n"

/-- Appending entries to the catalog: the concatenation of their lines in
order. -/
def xlogdb_append : List WalFileInfo → String
  | [] => ""
  | w :: rest => to_xlogdb_line w ++ xlogdb_append rest

/-- Parse a non-empty all-digit character list as a decimal natural. -/
def parse_nat_chars (cs : List Char) : Option Nat :=
  if cs.isEmpty then none
  else if cs.all Char.isDigit then
    some (cs.foldl (fun a c => 10 * a + (c.toNat - 48)) 0)
  else none

/-- Modelled from the spec: reading one catalog line back splits the four
tab-separated columns, parses size and mtime as decimal integers, and
maps the literal token `"None"` back to a null compression. -/
def from_xlogdb_fields : List (List Char) → Option WalFileInfo
  | [n, s, t, c] =>
      match parse_nat_chars s, parse_nat_chars t with
      | some sz, some tm =>
          some ⟨n.asString, sz, tm,
            if c = "None".data then none else some c.asString⟩
      | _, _ => none
  | _ => none

/-- Read one record (a line without its trailing newline). -/
def from_xlogdb_line (cs : List Char) : Option WalFileInfo :=
  from_xlogdb_fields (splitOnChar '\t' cs)

/-- Read the whole catalog back: split on newlines (the final newline
leaves one trailing empty chunk, which is dropped) and parse each
record. -/
def xlogdb_read (s : String) : Option (List WalFileInfo) :=
  ((splitOnChar '\n' s.data).dropLast).mapM from_xlogdb_line

/-- The most-significant-first decimal digit characters of a natural. -/
def digitsMSD (n : Nat) : List Char :=
  (Nat.digits 10 n).reverse.map Nat.digitChar

theorem digitsMSD_def (n : Nat) (h : 0 < n) :
    digitsMSD n = digitsMSD (n / 10) ++ [Nat.digitChar (n % 10)] := by
  unfold digitsMSD
  rw [Nat.digits_def' (by norm_num : (1:Nat) < 10) h]
  rw [List.reverse_cons, List.map_append]
  rfl

theorem toDigitsCore_eq_digitsMSD (fuel : Nat) :
    ∀ (n : Nat) (ds : List Char), 0 < n → n < fuel →
      Nat.toDigitsCore 10 fuel n ds = digitsMSD n ++ ds := by
  induction fuel with
  | zero => intro n ds _ h; exact absurd h (Nat.not_lt_zero n)
  | succ fuel ih =>
      intro n ds hn hlt
      rw [Nat.toDigitsCore]
      by_cases hdiv : n / 10 = 0
      · rw [if_pos hdiv]
        rw [digitsMSD_def n hn, hdiv]
        unfold digitsMSD
        simp
      · rw [if_neg hdiv]
        have hdivpos : 0 < n / 10 := Nat.pos_of_ne_zero hdiv
        have hdivlt : n / 10 < fuel :=
          Nat.lt_of_lt_of_le (Nat.div_lt_self hn (by norm_num))
            (Nat.le_of_lt_succ hlt)
        rw [ih (n / 10) (Nat.digitChar (n % 10) :: ds) hdivpos hdivlt]
        rw [digitsMSD_def n hn]
        simp

/-- `Nat.repr` produces `'0'` for zero and the most-significant-first
decimal digits otherwise. -/
theorem repr_data (n : Nat) :
    (Nat.repr n).data = if n = 0 then ['0'] else digitsMSD n := by
  by_cases h : n = 0
  · subst h; rfl
  · rw [if_neg h]
    show (Nat.toDigits 10 n).asString.data = _
    rw [Nat.toDigits]
    rw [toDigitsCore_eq_digitsMSD (n + 1) n [] (Nat.pos_of_ne_zero h)
      (Nat.lt_succ_self n)]
    simp [List.asString]

theorem digitChar_isDigit (d : Nat) (h : d < 10) :
    (Nat.digitChar d).isDigit = true := by
  interval_cases d <;> decide

theorem digitChar_toNat (d : Nat) (h : d < 10) :
    (Nat.digitChar d).toNat - 48 = d := by
  interval_cases d <;> decide

theorem digitsMSD_all_digits (n : Nat) :
    ∀ c ∈ digitsMSD n, c.isDigit = true := by
  intro c hc
  obtain ⟨d, hd, rfl⟩ := List.mem_map.1 hc
  exact digitChar_isDigit d
    (Nat.digits_lt_base (by norm_num) (List.mem_reverse.1 hd))

theorem isDigit_ne_tab_newline (c : Char) (h : c.isDigit = true) :
    c ≠ '\t' ∧ c ≠ '\n' := by
  constructor <;> rintro rfl <;> simp at h

theorem foldl_digitsMSD (n : Nat) (hn : 0 < n) :
    ∀ a : Nat,
      (digitsMSD n).foldl (fun acc c => 10 * acc + (c.toNat - 48)) a =
        a * 10 ^ (digitsMSD n).length + n := by
  induction n using Nat.strong_induction_on with
  | _ n ih =>
      intro a
      rw [digitsMSD_def n hn]
      rw [List.foldl_append]
      by_cases hdiv : n / 10 = 0
      · rw [hdiv]
        have h10 : n % 10 = n := Nat.mod_eq_of_lt (by omega)
        unfold digitsMSD
        simp only [Nat.digits_zero, List.reverse_nil, List.map_nil,
          List.nil_append, List.foldl_cons, List.foldl_nil,
          List.length_cons, List.length_nil, pow_succ, pow_zero]
        rw [digitChar_toNat (n % 10) (Nat.mod_lt n (by norm_num))]
        omega
      · have hdivpos : 0 < n / 10 := Nat.pos_of_ne_zero hdiv
        have hdivlt : n / 10 < n := Nat.div_lt_self hn (by norm_num)
        rw [ih (n / 10) hdivlt hdivpos a]
        simp only [List.foldl_cons, List.foldl_nil, List.length_append,
          List.length_cons, List.length_nil]
        rw [digitChar_toNat (n % 10) (Nat.mod_lt n (by norm_num))]
        have := Nat.div_add_mod n 10
        rw [pow_succ]
        ring_nf
        omega

/-- Decimal rendering and parsing round-trip. -/
theorem parse_nat_chars_repr (n : Nat) :
    parse_nat_chars (Nat.repr n).data = some n := by
  rw [repr_data]
  by_cases h : n = 0
  · subst h; rfl
  · rw [if_neg h]
    have hn : 0 < n := Nat.pos_of_ne_zero h
    have hne : digitsMSD n ≠ [] := by
      unfold digitsMSD
      simp only [ne_eq, List.map_eq_nil_iff, List.reverse_eq_nil_iff]
      exact Nat.digits_ne_nil_iff_ne_zero.2 h
    unfold parse_nat_chars
    rw [if_neg (by simpa [List.isEmpty_iff] using hne)]
    rw [if_pos (List.all_eq_true.2 fun c hc =>
      digitsMSD_all_digits n c hc)]
    rw [foldl_digitsMSD n hn 0]
    simp

theorem splitOnChar_of_not_mem {α : Type} [DecidableEq α] (sep : α)
    (xs : List α) (h : sep ∉ xs) : splitOnChar sep xs = [xs] := by
  induction xs with
  | nil => rfl
  | cons c cs ih =>
      rw [splitOnChar,
        if_neg (fun hc => h (List.mem_cons.2 (Or.inl hc.symm))),
        ih (fun hc => h (List.mem_cons_of_mem c hc))]

theorem splitOnChar_append {α : Type} [DecidableEq α] (sep : α)
    (xs ys : List α) (h : sep ∉ xs) :
    splitOnChar sep (xs ++ sep :: ys) = xs :: splitOnChar sep ys := by
  induction xs with
  | nil => rw [List.nil_append, splitOnChar, if_pos rfl]
  | cons c cs ih =>
      rw [List.cons_append, splitOnChar,
        if_neg (fun hc => h (List.mem_cons.2 (Or.inl hc.symm))),
        ih (fun hc => h (List.mem_cons_of_mem c hc))]

/-- One catalog record: the line without its trailing newline. -/
def recordChars (w : WalFileInfo) : List Char :=
  w.name.data ++ '\t' :: ((Nat.repr w.size).data ++ '\t' ::
    ((Nat.repr w.time).data ++ '\t' ::
      (compression_token w.compression).data))

theorem to_xlogdb_line_data (w : WalFileInfo) :
    (to_xlogdb_line w).data = recordChars w ++ ['\n'] := by
  show (w.name ++ "\t" ++ Nat.repr w.size ++ "\t" ++ Nat.repr w.time ++
      "\t" ++ compression_token w.compression ++ "\n").data = _
  simp only [String.data_append]
  unfold recordChars
  simp [List.append_assoc]

/-- A well-formed catalog entry: the free-text columns contain no
separator characters and the compression name is not the absent-value
token itself. -/
def wellFormedWal (w : WalFileInfo) : Prop :=
  ('\t' ∉ w.name.data ∧ '\n' ∉ w.name.data) ∧
  (∀ c ∈ w.compression, c ≠ "None" ∧ '\t' ∉ c.data ∧ '\n' ∉ c.data)

theorem repr_no_tab_newline (n : Nat) :
    '\t' ∉ (Nat.repr n).data ∧ '\n' ∉ (Nat.repr n).data := by
  rw [repr_data]
  by_cases h : n = 0
  · rw [if_pos h]; exact ⟨by decide, by decide⟩
  · rw [if_neg h]
    constructor <;> intro hc
    · exact absurd rfl
        (isDigit_ne_tab_newline _ (digitsMSD_all_digits n _ hc)).1
    · exact absurd rfl
        (isDigit_ne_tab_newline _ (digitsMSD_all_digits n _ hc)).2

theorem token_no_tab_newline (w : WalFileInfo) (h : wellFormedWal w) :
    '\t' ∉ (compression_token w.compression).data ∧
    '\n' ∉ (compression_token w.compression).data := by
  cases hc : w.compression with
  | none => exact ⟨by decide, by decide⟩
  | some c =>
      have := h.2 c (by rw [hc]; rfl)
      exact ⟨this.2.1, this.2.2⟩

theorem record_no_newline (w : WalFileInfo) (h : wellFormedWal w) :
    '\n' ∉ recordChars w := by
  unfold recordChars
  intro hmem
  rcases List.mem_append.1 hmem with hm | hm
  · exact h.1.2 hm
  · rcases List.mem_cons.1 hm with heq | hm
    · exact absurd heq (by decide)
    · rcases List.mem_append.1 hm with hm | hm
      · exact (repr_no_tab_newline w.size).2 hm
      · rcases List.mem_cons.1 hm with heq | hm
        · exact absurd heq (by decide)
        · rcases List.mem_append.1 hm with hm | hm
          · exact (repr_no_tab_newline w.time).2 hm
          · rcases List.mem_cons.1 hm with heq | hm
            · exact absurd heq (by decide)
            · exact (token_no_tab_newline w h).2 hm

theorem splitFields_record (w : WalFileInfo) (h : wellFormedWal w) :
    splitOnChar '\t' (recordChars w) =
      [w.name.data, (Nat.repr w.size).data, (Nat.repr w.time).data,
        (compression_token w.compression).data] := by
  unfold recordChars
  rw [splitOnChar_append '\t' _ _ h.1.1,
    splitOnChar_append '\t' _ _ (repr_no_tab_newline w.size).1,
    splitOnChar_append '\t' _ _ (repr_no_tab_newline w.time).1,
    splitOnChar_of_not_mem '\t' _ (token_no_tab_newline w h).1]

theorem from_xlogdb_fields_quad (n s t c : List Char) :
    from_xlogdb_fields [n, s, t, c] =
      match parse_nat_chars s, parse_nat_chars t with
      | some sz, some tm =>
          some ⟨n.asString, sz, tm,
            if c = "None".data then none else some c.asString⟩
      | _, _ => none := rfl

theorem from_xlogdb_line_record (w : WalFileInfo) (h : wellFormedWal w) :
    from_xlogdb_line (recordChars w) = some w := by
  unfold from_xlogdb_line
  rw [splitFields_record w h, from_xlogdb_fields_quad,
    parse_nat_chars_repr, parse_nat_chars_repr]
  obtain ⟨⟨name⟩, size, time, compression⟩ := w
  dsimp only
  cases compression with
  | none =>
      rw [if_pos (by decide)]
      rfl
  | some c =>
      have hne : ¬ (compression_token (some c)).data = "None".data := by
        intro hc
        exact (h.2 c rfl).1 (String.ext hc)
      rw [if_neg hne]
      rfl

theorem splitOnChar_xlogdb_append (ws : List WalFileInfo)
    (h : ∀ w ∈ ws, wellFormedWal w) :
    splitOnChar '\n' (xlogdb_append ws).data =
      ws.map recordChars ++ [[]] := by
  induction ws with
  | nil => rfl
  | cons w rest ih =>
      show splitOnChar '\n' (to_xlogdb_line w ++ xlogdb_append rest).data = _
      rw [String.data_append, to_xlogdb_line_data, List.append_assoc,
        List.singleton_append,
        splitOnChar_append '\n' _ _
          (record_no_newline w (h w (List.mem_cons_self _ _))),
        ih (fun w' hw' => h w' (List.mem_cons_of_mem _ hw'))]
      rfl

theorem mapM_from_records (ws : List WalFileInfo)
    (h : ∀ w ∈ ws, wellFormedWal w) :
    (ws.map recordChars).mapM from_xlogdb_line = some ws := by
  induction ws with
  | nil => rfl
  | cons w rest ih =>
      rw [List.map_cons, List.mapM_cons,
        from_xlogdb_line_record w (h w (List.mem_cons_self _ _)),
        ih (fun w' hw' => h w' (List.mem_cons_of_mem _ hw'))]
      rfl

/-- **C9.** `to_xlogdb_line` renders exactly the four fields `name`,
`size`, `mtime`, `compression` separated by single tabs and terminated by
a newline, with the literal token `None` when compression is null — the
unit test's instance is reproduced byte-for-byte; consequently, appending
N well-formed entries to the catalog and reading them back yields the
same N entries in append order. -/
theorem C9_xlogdb_roundtrip (ws : List WalFileInfo)
    (h : ∀ w ∈ ws, wellFormedWal w) :
    to_xlogdb_line ⟨"test_name", 42, 43, none⟩ =
      "test_name\t42\t43\tNone\n" ∧
    (∀ w : WalFileInfo, (to_xlogdb_line w).data =
      w.name.data ++ '\t' :: ((Nat.repr w.size).data ++ '\t' ::
        ((Nat.repr w.time).data ++ '\t' ::
          (compression_token w.compression).data)) ++ ['\n']) ∧
    compression_token none = "None" ∧
    xlogdb_read (xlogdb_append ws) = some ws := by
  refine ⟨by decide, ?_, rfl, ?_⟩
  · intro w
    rw [to_xlogdb_line_data]
    rfl
  · unfold xlogdb_read
    rw [splitOnChar_xlogdb_append ws h, List.dropLast_concat]
    exact mapM_from_records ws h

end Barman

namespace Barman

/-! ## Witnesses: each claim theorem evaluated at a concrete input -/

/-- C1 at a concrete state whose buffer already exceeds the chunk size:
the write flushes first. -/
theorem C1_s3_tar_uploader_multipart_witness :
    ({ chunk_size := 1, buffer := [7, 8], mpu := false, counter := 1,
        parts := [], completions := [] } : S3TarUploader).write [9] =
      { chunk_size := 1, buffer := [9], mpu := true, counter := 2,
        parts := [(1, [7, 8])], completions := [] } := by
  have h := (C1_s3_tar_uploader_multipart [] 0).1
    ({ chunk_size := 1, buffer := [7, 8], mpu := false, counter := 1,
        parts := [], completions := [] } : S3TarUploader) [9] (by decide)
  rw [h]
  decide

/-- C2 at a concrete backup with one tablespace: the `pg_tblspc` link is
in the PGDATA exclusion list. -/
theorem C2_backup_copy_tablespaces_witness :
    ("pg_tblspc/" ++ toString (16384 : Nat)) ∈
      pgdata_exclude [] []
        ⟨"/pg", [⟨16384, "tbs", "/pg/tbs"⟩], []⟩ :=
  ((C2_backup_copy_tablespaces [] []
      ⟨"/pg", [⟨16384, "tbs", "/pg/tbs"⟩], []⟩ "9.6").2
    ⟨16384, "tbs", "/pg/tbs"⟩ (List.mem_singleton.2 rfl)).1

/-- C3 at a URL with scheme `s3` but no netloc: construction fails. -/
theorem C3_cloud_interface_url_witness :
    CloudInterface.init "s3:nope" =
      .error (.valueError ("Invalid s3 URL address: " ++ "s3:nope")) :=
  (C3_cloud_interface_url "s3:nope").2.2 (by decide)

/-- C4 at receiver 9.2.1 and server 9.2.7: below 9.3, exact
`major.minor` match required (and satisfied). -/
theorem C4_pg_receivexlog_compatible_witness :
    pg_receivexlog_compatible (some ⟨9, 2, 1⟩) (some ⟨9, 2, 7⟩) =
      some (decide ((9 : Nat) = 9) && decide ((2 : Nat) = 2)) :=
  C4_pg_receivexlog_compatible.2.1 ⟨9, 2, 1⟩ ⟨9, 2, 7⟩ (by decide)

/-- C5 (amended) at concrete walks: an entry that was added passes the
filter at its own path; and with `exclude=['/a']`, `include=['/a/f']`
the direct file `a/f` of the rejected directory `a` — although it passes
the filter at its own path — is not added. -/
theorem C5_upload_directory_filters_witness :
    path_allowed (some ["/x"]) none ["f"] false = true ∧
    (TarEntry.mk (["a"] ++ ["f"]) false ∉
      upload_directory (some ["/a"]) (some ["/a/f"])
        [.dir "a" [.file "f"]]) := by
  constructor
  · have hmem : (⟨["f"], false⟩ : TarEntry) ∈
        upload_directory (some ["/x"]) none [.file "f"] := by
      simp only [upload_directory, walkRoot, walkList, walkTree]
      decide
    exact (C5_upload_directory_filters (some ["/x"]) none [.file "f"]).1
      ⟨["f"], false⟩ hmem
  · exact (C5_upload_directory_filters (some ["/a"]) (some ["/a/f"])
      [.dir "a" [.file "f"]]).2.1 ["a"] "f" (by decide)

/-- C6 at a successful `--test` environment: exit code 0 iff the store is
reachable. -/
theorem C6_main_exit_codes_witness :
    (main ⟨true, "s3://b/p", true, true, true, true⟩).exit_code = 0 ↔
      (true : Bool) = true :=
  (C6_main_exit_codes ⟨true, "s3://b/p", true, true, true, true⟩).2.2.1
    rfl ⟨⟨"s3://b/p", "b", "/p"⟩, rfl⟩ rfl

/-- C7 at a probe whose connection fails and whose `pg_stat_archiver`
view is unavailable: both fields are `None`. -/
theorem C7_file_wal_archiver_remote_status_witness :
    get_remote_status
        ⟨.error .connectionError, .error .connectionError, none⟩ =
      [("archive_mode", none), ("archive_command", none)] :=
  (C7_file_wal_archiver_remote_status
      ⟨.error .connectionError, .error .connectionError, none⟩).2.2.1
    .connectionError rfl rfl

/-- C8 at a missing optional source: nothing is added. -/
theorem C8_optional_ident_file_witness :
    add_file (fun _ => false) "/pg/pg_ident.conf" "pg_ident.conf" true =
      [] :=
  (C8_optional_ident_file [] [] ⟨"/pg", [], []⟩ "9.6").1
    (fun _ => false) "/pg/pg_ident.conf" "pg_ident.conf" rfl

/-- C9 at a concrete two-entry catalog: appending then reading back
returns the same entries. -/
theorem C9_xlogdb_roundtrip_witness :
    xlogdb_read (xlogdb_append
        [⟨"w1", 42, 43, none⟩, ⟨"w2", 0, 1, some "bz2"⟩]) =
      some [⟨"w1", 42, 43, none⟩, ⟨"w2", 0, 1, some "bz2"⟩] := by
  refine (C9_xlogdb_roundtrip
      [⟨"w1", 42, 43, none⟩, ⟨"w2", 0, 1, some "bz2"⟩] ?_).2.2.2
  intro w hw
  rcases List.mem_cons.1 hw with rfl | hw
  · refine ⟨⟨by decide, by decide⟩, ?_⟩
    intro c hc
    cases hc
  · rcases List.mem_cons.1 hw with rfl | hw
    · refine ⟨⟨by decide, by decide⟩, ?_⟩
      intro c hc
      cases hc
      exact ⟨by decide, by decide, by decide⟩
    · exact absurd hw (List.not_mem_nil w)

/-- C10 at a concrete run: the single destination's stream received its
payloads, and after `close()` the destination entry is `None`. -/
theorem C10_controller_one_stream_per_dst_witness :
    tarFor (controller_run [("data", [1, 2])] controller_init) "data" =
      S3TarUploader.runWrites (S3TarUploader.init DEFAULT_CHUNK_SIZE)
        (payloadsFor "data" [("data", [1, 2])]) ∧
    (("data", (none : Option S3TarUploader)) :
        String × Option S3TarUploader).2 = none := by
  constructor
  · exact (C10_controller_one_stream_per_dst [("data", [1, 2])]).2.2.1
      "data"
  · refine (C10_controller_one_stream_per_dst
        [("data", [1, 2])]).2.2.2.2.2.1 ("data", none) ?_
    decide

end Barman
